import Mathlib

/-!
Verification of `src/scripts/backtesting/transaction_fetcher.rs`.

The Rust program fetches blocks of a blockchain over JSON-RPC, filters each
block's transactions for those addressed to a target contract, aggregates the
results over a block range in concurrency-bounded batches, and encodes the
aggregate.  This file gives a shallow embedding of that program:

* the wire data model (`Transaction`, `Block`) and the output record
  (`FilteredTransaction`) mirror the Rust structs;
* the per-block filter loop of `fetch_block_transactions` (lines 88-128)
  is `filterLoop` / `fetch_block_transactions_filter`; its `panic!` calls on
  malformed hex numerals are modelled as the `Except.error` branch, which the
  range fetcher treats as an abort of the whole run (a Rust panic unwinds
  through `buffer_unordered` and `collect`), distinct from the recoverable
  per-block `Err` outcome (`FetchRes.failed`);
* the network is a parameter `net : Nat → Option Block` (`none` models a
  request/deserialization error, the `?`-propagated `Err` branch);
* the batching loop of `fetch_block_range_transactions_optimized`
  (lines 158-206) is `batches` / `runBatches`; the out-of-order completion of
  `buffer_unordered` is a parameter `sched : List Nat → List Nat` giving, for
  each batch, the completion order of its blocks (a permutation of the batch);
* the in-flight bookkeeping of `buffer_unordered` within the sequential batch
  loop is the transition system `SchedState` / `Step`;
* the encoders `encode_simple_format` and `encode_transactions_for_foundry`
  are translated directly.
-/

/-- Rust struct `Transaction` (wire shape of a block's transaction).
`from` is written `«from»` because it is a Lean keyword. -/
structure Transaction where
  hash : String
  «from» : String
  «to» : Option String
  value : String
  input : String
  transaction_index : String
  gas_price : String
deriving DecidableEq

/-- Rust struct `Block` (wire shape of an RPC block). -/
structure Block where
  transactions : List Transaction
  number : String
  base_fee_per_gas : Option String
deriving DecidableEq

/-- Rust struct `FilteredTransaction` (canonical output record). -/
structure FilteredTransaction where
  hash : String
  «from» : String
  «to» : String
  value : String
  data : String
  block_number : String
  transaction_index : String
  gas_price : String
deriving DecidableEq

/-- Model of Rust `str::to_lowercase`.  The addresses compared by the program
are ASCII strings, on which Unicode lowercasing is per-`Char` ASCII
lowercasing. -/
def lowerString (s : String) : String :=
  String.mk (s.data.map Char.toLower)

/-- Model of `s.starts_with("0x")`. -/
def startsWith0x (s : String) : Bool :=
  match s.data with
  | '0' :: 'x' :: _ => true
  | _ => false

/-- Value of one hexadecimal digit, as accepted by Rust
`u64::from_str_radix(_, 16)` (both letter cases). -/
def hexDigitVal (c : Char) : Option Nat :=
  if '0' ≤ c ∧ c ≤ '9' then some (c.toNat - '0'.toNat)
  else if 'a' ≤ c ∧ c ≤ 'f' then some (c.toNat - 'a'.toNat + 10)
  else if 'A' ≤ c ∧ c ≤ 'F' then some (c.toNat - 'A'.toNat + 10)
  else none

/-- Model of Rust `u64::from_str_radix(s, 16)`: an optional leading `+`,
then a nonempty run of hex digits; the value must fit in 64 bits (Rust
reports overflow as an error, and since the accumulated value only grows,
an intermediate overflow happens iff the final value overflows). -/
def u64_from_str_radix_16 (cs : List Char) : Option Nat :=
  let ds := match cs with
    | '+' :: rest => rest
    | _ => cs
  match ds with
  | [] => none
  | _ =>
    match ds.foldl (fun acc c => acc.bind fun a => (hexDigitVal c).map fun d => a * 16 + d)
        (some 0) with
    | none => none
    | some v => if v < 2 ^ 64 then some v else none

/-- Panic message prefix at line 99 of the source (`panic!("Invalid hex block
number: {}", block.number)`). -/
def invalidBlockMsg : String := "Invalid hex block number: "

/-- Panic message prefix at line 108 of the source (`panic!("Invalid hex
transaction index: {}", tx.transaction_index)`). -/
def invalidIdxMsg : String := "Invalid hex transaction index: "

/-- The numeric normalization at lines 97-112: if the string is `0x`-prefixed,
parse the rest as hex and render the value in decimal (`u64::to_string`,
modelled by `Nat.repr`); a parse failure is the `panic!` (modelled as
`Except.error` with the panic message); a non-prefixed string is cloned
through unchanged. -/
def convertNumeric (panicPrefix : String) (s : String) : Except String String :=
  if startsWith0x s then
    match u64_from_str_radix_16 (s.data.drop 2) with
    | some n => Except.ok (Nat.repr n)
    | none => Except.error (panicPrefix ++ s)
  else Except.ok s

/-- The match condition of the filter loop (lines 94-95): the transaction has
a `to` field and its lowercasing equals the pre-lowercased target. -/
def matchesTarget (target_lower : String) (tx : Transaction) : Bool :=
  match tx.«to» with
  | some toAddr => lowerString toAddr == target_lower
  | none => false

/-- The loop body of `fetch_block_transactions` (lines 92-126): walk the
block's transactions in order; a transaction with an absent `to` or a
non-matching `to` is skipped; for a match, normalize the block number and the
transaction index (either may panic, modelled as `Except.error`) and push the
output record.  The block number is normalized before the index, as in the
source, so the first panic message wins. -/
def filterLoop (number target_lower : String) :
    List Transaction → Except String (List FilteredTransaction)
  | [] => Except.ok []
  | tx :: rest =>
    match tx.«to» with
    | none => filterLoop number target_lower rest
    | some toAddr =>
      if lowerString toAddr == target_lower then
        match convertNumeric invalidBlockMsg number with
        | Except.error m => Except.error m
        | Except.ok block_num_decimal =>
          match convertNumeric invalidIdxMsg tx.transaction_index with
          | Except.error m => Except.error m
          | Except.ok tx_index_decimal =>
            match filterLoop number target_lower rest with
            | Except.error m => Except.error m
            | Except.ok l =>
              Except.ok ({ hash := tx.hash, «from» := tx.«from», «to» := toAddr,
                           value := tx.value, data := tx.input,
                           block_number := block_num_decimal,
                           transaction_index := tx_index_decimal,
                           gas_price := tx.gas_price } :: l)
      else filterLoop number target_lower rest

/-- The filtering phase of `fetch_block_transactions` (lines 88-128), applied
to an already-received block: lowercase the target once, then run the loop. -/
def fetch_block_transactions_filter (b : Block) (target_contract : String) :
    Except String (List FilteredTransaction) :=
  filterLoop b.number (lowerString target_contract) b.transactions

/-- Outcome of one per-block fetch as seen by the range fetcher:
`failed` is the recoverable `Err` of `fetch_block_transactions` (network or
deserialization error), `panicked` is a `panic!` escaping the filter (which
unwinds, it is not a value of the `Result`), `fetched` is `Ok`. -/
inductive FetchRes where
  | panicked (msg : String)
  | failed
  | fetched (txs : List FilteredTransaction)
deriving DecidableEq

/-- `fetch_block_transactions` (lines 60-129) against a network modelled as
`net : Nat → Option Block` (`none` = the `?`-propagated request error). -/
def fetch_block_transactions (net : Nat → Option Block) (target_contract : String)
    (block_number : Nat) : FetchRes :=
  match net block_number with
  | none => FetchRes.failed
  | some b =>
    match fetch_block_transactions_filter b target_contract with
    | Except.error m => FetchRes.panicked m
    | Except.ok txs => FetchRes.fetched txs

/-- The inclusive block list `(a..=b).collect()`. -/
def blockRange (a b : Nat) : List Nat :=
  List.range' a (b + 1 - a)

/-- The batch loop `for batch_start in (start..=end).step_by(batch_size)`
(lines 159-161), fuelled: each iteration advances `batch_start` by
`batch_size ≥ 1`, so `end + 1 - start` iterations always suffice.
(`step_by(0)` panics in Rust; the `batch_size = 0` guard is never exercised
under the `1 ≤ batch_size` hypotheses of the theorems below.) -/
def batchesFuel : Nat → Nat → Nat → Nat → List (List Nat)
  | 0, _, _, _ => []
  | fuel + 1, batch_start, end_block, batch_size =>
    if batch_size = 0 ∨ end_block < batch_start then []
    else
      blockRange batch_start (min (batch_start + batch_size - 1) end_block) ::
        batchesFuel fuel (batch_start + batch_size) end_block batch_size

/-- The batch partition of `[start_block, end_block]` produced by the loop
headers at lines 159-161. -/
def batches (start_block end_block batch_size : Nat) : List (List Nat) :=
  batchesFuel (end_block + 1 - start_block) start_block end_block batch_size

/-- The mutable aggregation state of `fetch_block_range_transactions_optimized`
(lines 154-156). -/
structure RangeAgg where
  all_transactions : List FilteredTransaction
  total_blocks_processed : Nat
  total_transactions_found : Nat
deriving DecidableEq

/-- Transactions contributed by one per-block outcome: a failed fetch
contributes none. -/
def txsOf : FetchRes → List FilteredTransaction
  | FetchRes.fetched txs => txs
  | _ => []

/-- Whether a per-block outcome is the success case (`Ok` arm, lines 196-200). -/
def isFetchedRes : FetchRes → Bool
  | FetchRes.fetched _ => true
  | _ => false

/-- Whether a per-block outcome is the recoverable error case (`Err` arm,
lines 201-203). -/
def isFailedRes : FetchRes → Bool
  | FetchRes.failed => true
  | _ => false

/-- Whether a per-block outcome is a panic. -/
def isPanicked : FetchRes → Bool
  | FetchRes.panicked _ => true
  | _ => false

/-- The collection loop over one batch's results (lines 194-205), taken in
completion order.  The `Ok` arm extends `all_transactions` and bumps the
counters; the `Err` arm is skipped.  A panicking fetch never yields a
`Result` at all: it unwinds through `buffer_unordered`/`collect` and aborts
the run, modelled by `Except.error`. -/
def processResults (acc : RangeAgg) : List FetchRes → Except String RangeAgg
  | [] => Except.ok acc
  | FetchRes.panicked m :: _ => Except.error m
  | FetchRes.failed :: rest => processResults acc rest
  | FetchRes.fetched txs :: rest =>
    processResults
      { all_transactions := acc.all_transactions ++ txs,
        total_blocks_processed := acc.total_blocks_processed + 1,
        total_transactions_found := acc.total_transactions_found + txs.length } rest

/-- The sequential outer batch loop (lines 158-206): each batch's blocks are
dispatched, complete in the order given by `sched` (an arbitrary completion
order of `buffer_unordered`), and are collected at the batch barrier before
the next batch starts. -/
def runBatches (fetch : Nat → FetchRes) (sched : List Nat → List Nat) :
    List (List Nat) → RangeAgg → Except String RangeAgg
  | [], acc => Except.ok acc
  | bl :: rest, acc =>
    match processResults acc ((sched bl).map fetch) with
    | Except.error m => Except.error m
    | Except.ok acc' => runBatches fetch sched rest acc'

/-- `fetch_block_range_transactions_optimized` (lines 132-216), parameterized
by the per-block fetch (in the source, `fetch_block_transactions` with the
shared pooled client) and by the per-batch completion order `sched` of
`buffer_unordered`. -/
def fetch_block_range_transactions_optimized (fetch : Nat → FetchRes)
    (sched : List Nat → List Nat) (start_block end_block batch_size : Nat) :
    Except String RangeAgg :=
  runBatches fetch sched (batches start_block end_block batch_size)
    { all_transactions := [], total_blocks_processed := 0,
      total_transactions_found := 0 }

/-- The sequence of per-block fetch invocations a run performs, in dispatch
order grouped by batch: `runBatches` applies `fetch` exactly once per element
of this list. -/
def invocations (sched : List Nat → List Nat) (start_block end_block batch_size : Nat) :
    List Nat :=
  ((batches start_block end_block batch_size).map sched).flatten

/-- In-flight bookkeeping of the run, for the concurrency bound:
`queued` are the current batch's blocks not yet dispatched (in iterator
order), `inflight` the dispatched but uncompleted fetches, `restBatches` the
batches after the current one. -/
structure SchedState where
  queued : List Nat
  inflight : List Nat
  restBatches : List (List Nat)
deriving DecidableEq

/-- One scheduling step of the run with concurrency cap `k`:
`start` models `buffer_unordered(k)` polling the next future from its
iterator, which it does only while fewer than `k` are in flight; `finish`
models an in-flight fetch completing; `nextBatch` models the outer loop
moving to the next batch, possible only at the batch barrier (current batch
fully drained, lines 188-191). -/
inductive Step (k : Nat) : SchedState → SchedState → Prop
  | start (n : Nat) (queued inflight : List Nat) (rest : List (List Nat)) :
      inflight.length < k →
      Step k ⟨n :: queued, inflight, rest⟩ ⟨queued, inflight ++ [n], rest⟩
  | finish (queued : List Nat) (l₁ : List Nat) (n : Nat) (l₂ : List Nat)
      (rest : List (List Nat)) :
      Step k ⟨queued, l₁ ++ n :: l₂, rest⟩ ⟨queued, l₁ ++ l₂, rest⟩
  | nextBatch (bl : List Nat) (rest : List (List Nat)) :
      Step k ⟨[], [], bl :: rest⟩ ⟨bl, [], rest⟩

/-- Reflexive-transitive closure of `Step`. -/
inductive Reach (k : Nat) : SchedState → SchedState → Prop
  | refl (st : SchedState) : Reach k st st
  | tail {a b c : SchedState} : Reach k a b → Step k b c → Reach k a c

/-- Initial scheduling state of a run: nothing dispatched, all batches ahead. -/
def initSched (start_block end_block batch_size : Nat) : SchedState :=
  ⟨[], [], batches start_block end_block batch_size⟩

/-- One record of the simple pipe-delimited encoding (the push sequence at
lines 236-252). -/
def recordString (tx : FilteredTransaction) : String :=
  "|" ++ tx.hash ++ "|" ++ tx.«from» ++ "|" ++ tx.«to» ++ "|" ++ tx.value ++ "|" ++
    tx.data ++ "|" ++ tx.block_number ++ "|" ++ tx.transaction_index ++ "|" ++
    tx.gas_price

/-- `encode_simple_format` (lines 228-256): `"0"` for an empty list, else the
decimal count followed by one pipe-delimited record per transaction. -/
def encode_simple_format (transactions : List FilteredTransaction) : String :=
  if transactions.isEmpty then "0"
  else
    transactions.foldl
      (fun result tx =>
        result ++ "|" ++ tx.hash ++ "|" ++ tx.«from» ++ "|" ++ tx.«to» ++ "|" ++
          tx.value ++ "|" ++ tx.data ++ "|" ++ tx.block_number ++ "|" ++
          tx.transaction_index ++ "|" ++ tx.gas_price)
      (Nat.repr transactions.length)

/-- JSON string escaping as performed by `serde_json` on the all-string
fields: quote, backslash, and control characters are escaped. -/
def jsonEscapeChar (c : Char) : String :=
  if c = '"' then "\\\""
  else if c = '\\' then "\\\\"
  else if c = Char.ofNat 8 then "\\b"
  else if c = Char.ofNat 9 then "\\t"
  else if c = Char.ofNat 10 then "\\n"
  else if c = Char.ofNat 12 then "\\f"
  else if c = Char.ofNat 13 then "\\r"
  else if c.toNat < 32 then
    "\\u00" ++ String.mk [(Nat.digitChar (c.toNat / 16)), (Nat.digitChar (c.toNat % 16))]
  else String.mk [c]

/-- A JSON string literal for one field value. -/
def jsonString (s : String) : String :=
  "\"" ++ String.join (s.data.map jsonEscapeChar) ++ "\""

/-- `serde_json` serialization of one `FilteredTransaction` (fields in
declaration order, names as declared, no renames on this struct). -/
def jsonObject (tx : FilteredTransaction) : String :=
  "\x7b\"hash\":" ++ jsonString tx.hash ++ ",\"from\":" ++ jsonString tx.«from» ++
    ",\"to\":" ++ jsonString tx.«to» ++ ",\"value\":" ++ jsonString tx.value ++
    ",\"data\":" ++ jsonString tx.data ++ ",\"block_number\":" ++
    jsonString tx.block_number ++ ",\"transaction_index\":" ++
    jsonString tx.transaction_index ++ ",\"gas_price\":" ++
    jsonString tx.gas_price ++ "\x7d"

/-- Model of `serde_json::to_string(transactions)`, which cannot fail on this
all-string data model (the `unwrap_or_else` fallback to `"[]"` at line 222 is
therefore never taken). -/
def serde_json_to_string (transactions : List FilteredTransaction) : String :=
  "[" ++ String.intercalate "," (transactions.map jsonObject) ++ "]"

/-- `encode_transactions_for_foundry` (lines 219-225): `"simple"` and
`"json"` are the two named arms; every other selector takes the wildcard arm,
which is the simple encoding. -/
def encode_transactions_for_foundry (transactions : List FilteredTransaction)
    (output_format : String) : String :=
  if output_format = "simple" then encode_simple_format transactions
  else if output_format = "json" then serde_json_to_string transactions
  else encode_simple_format transactions

/-- Decimal value of a digit string (for stating the ordering claim about the
decimal `block_number` / `transaction_index` fields). -/
def decimalValue (s : String) : Nat :=
  s.data.foldl (fun a c => a * 10 + (c.toNat - '0'.toNat)) 0

/-- Sort key order claimed by the spec for the final aggregate: ascending
block number, then ascending transaction index within a block. -/
def keyLe (a b : FilteredTransaction) : Prop :=
  decimalValue a.block_number < decimalValue b.block_number ∨
    (decimalValue a.block_number = decimalValue b.block_number ∧
      decimalValue a.transaction_index ≤ decimalValue b.transaction_index)

/-- Field correspondence between an output record and the matching source
transaction it was built from (lines 114-123): `hash`, `from`, `value`,
`input`/`data`, `gas_price` pass through verbatim, `to` is the transaction's
own `to` string verbatim, and the numeric fields are the successful
normalizations of the block number and the transaction's index. -/
def fieldCorr (number : String) (ft : FilteredTransaction) (tx : Transaction) : Prop :=
  ft.hash = tx.hash ∧ ft.«from» = tx.«from» ∧ tx.«to» = some ft.«to» ∧
    ft.value = tx.value ∧ ft.data = tx.input ∧ ft.gas_price = tx.gas_price ∧
    convertNumeric invalidBlockMsg number = Except.ok ft.block_number ∧
    convertNumeric invalidIdxMsg tx.transaction_index = Except.ok ft.transaction_index

/-! ## Concrete fixtures (used by witnesses and counterexamples) -/

/-- A contract-creation transaction (`to` absent). -/
def txCreate : Transaction :=
  { hash := "0xc", «from» := "0xf0", «to» := none, value := "0", input := "0x",
    transaction_index := "0x0", gas_price := "1" }

/-- A transaction addressed (in mixed case) to the target contract. -/
def txMatch : Transaction :=
  { hash := "0x1", «from» := "0xf1", «to» := some "0xAbC", value := "5",
    input := "0xdead", transaction_index := "0x1", gas_price := "2" }

/-- A transaction addressed to an unrelated contract. -/
def txOther : Transaction :=
  { hash := "0x2", «from» := "0xf2", «to» := some "0xdd", value := "7", input := "0x",
    transaction_index := "0x2", gas_price := "3" }

/-- A well-formed block (number `0x10`) with one matching transaction. -/
def blockFix : Block :=
  { transactions := [txCreate, txMatch, txOther], number := "0x10",
    base_fee_per_gas := none }

/-- The output record the filter produces for `txMatch` in `blockFix`. -/
def ftMatch : FilteredTransaction :=
  { hash := "0x1", «from» := "0xf1", «to» := "0xAbC", value := "5", data := "0xdead",
    block_number := "16", transaction_index := "1", gas_price := "2" }

/-- A block whose `number` is hex-prefixed but not valid hex, and which
contains a matching transaction. -/
def blockBad : Block :=
  { transactions := [txMatch], number := "0xzz", base_fee_per_gas := none }

/-- A network that serves `blockBad` as block 5. -/
def netBad : Nat → Option Block :=
  fun n => if n = 5 then some blockBad else none

/-- A one-matching-transaction block with the given wire block number. -/
def mkBlockSimple (numberHex : String) : Block :=
  { transactions := [{ hash := "0xa", «from» := "0xf", «to» := some "0xaa",
                       value := "1", input := "0x", transaction_index := "0x0",
                       gas_price := "1" }],
    number := numberHex, base_fee_per_gas := none }

/-- The record the filter produces for a `mkBlockSimple` block whose number
normalizes to the decimal string `bn`. -/
def ftOfBlock (bn : String) : FilteredTransaction :=
  { hash := "0xa", «from» := "0xf", «to» := "0xaa", value := "1", data := "0x",
    block_number := bn, transaction_index := "0", gas_price := "1" }

/-- A network serving blocks 1 and 2 (wire numbers `0x1`, `0x2`). -/
def netC3 : Nat → Option Block :=
  fun n =>
    if n = 1 then some (mkBlockSimple "0x1")
    else if n = 2 then some (mkBlockSimple "0x2")
    else none

/-- A completion order in which every batch completes in reverse dispatch
order (a permutation of the batch, as `buffer_unordered` may produce). -/
def schedRev : List Nat → List Nat := fun bl => bl.reverse

/-- A per-block fetch outcome map where block 2 fails and every other block
succeeds with one transaction. -/
def fetchC4 : Nat → FetchRes :=
  fun n => if n = 2 then FetchRes.failed else FetchRes.fetched [ftOfBlock (Nat.repr n)]

/-- Pipe-freeness of every field of an output record (the simple encoding is
only unambiguous on such records). -/
def pipeFree (tx : FilteredTransaction) : Prop :=
  tx.hash.data.count '|' = 0 ∧ tx.«from».data.count '|' = 0 ∧
    tx.«to».data.count '|' = 0 ∧ tx.value.data.count '|' = 0 ∧
    tx.data.data.count '|' = 0 ∧ tx.block_number.data.count '|' = 0 ∧
    tx.transaction_index.data.count '|' = 0 ∧ tx.gas_price.data.count '|' = 0

/-- Concatenation of the pipe-delimited records, in list order (the loop at
lines 235-253 appends exactly these pieces after the count). -/
def concatRecords : List FilteredTransaction → String
  | [] => ""
  | tx :: rest => recordString tx ++ concatRecords rest

/-! ## Lemmas about the batch partition -/

theorem batchesFuel_flatten (bs : Nat) (hbs : 1 ≤ bs) :
    ∀ (fuel s e : Nat), e + 1 - s ≤ fuel →
      (batchesFuel fuel s e bs).flatten = blockRange s e := by
  intro fuel
  induction fuel with
  | zero =>
    intro s e h
    have h0 : e + 1 - s = 0 := Nat.le_zero.mp h
    simp [batchesFuel, blockRange, h0]
  | succ fuel ih =>
    intro s e h
    by_cases hse : e < s
    · have h0 : e + 1 - s = 0 := by omega
      simp [batchesFuel, hse, blockRange, h0]
    · have hguard : ¬ (bs = 0 ∨ e < s) := by omega
      simp only [batchesFuel, if_neg hguard, List.flatten_cons]
      rw [ih (s + bs) e (by omega)]
      unfold blockRange
      rcases le_or_lt (s + bs - 1) e with hle | hlt
      · rw [min_eq_left hle]
        have h1 : s + bs - 1 + 1 - s = bs := by omega
        rw [h1]
        have happ := List.range'_append s bs (e + 1 - (s + bs)) 1
        simp only [one_mul] at happ
        rw [happ]
        congr 1
        omega
      · rw [min_eq_right (by omega)]
        have h2 : e + 1 - (s + bs) = 0 := by omega
        simp [h2]

theorem batchesFuel_mem_length (bs : Nat) :
    ∀ (fuel s e : Nat) (bl : List Nat), bl ∈ batchesFuel fuel s e bs →
      1 ≤ bl.length ∧ bl.length ≤ bs := by
  intro fuel
  induction fuel with
  | zero => intro s e bl hbl; simp [batchesFuel] at hbl
  | succ fuel ih =>
    intro s e bl hbl
    by_cases hguard : bs = 0 ∨ e < s
    · simp [batchesFuel, hguard] at hbl
    · simp only [batchesFuel, if_neg hguard, List.mem_cons] at hbl
      rcases hbl with rfl | hbl
      · have hbs : bs ≠ 0 := by tauto
        have hse : ¬ e < s := by tauto
        constructor
        · simp [blockRange, List.length_range']
          omega
        · simp [blockRange, List.length_range']
          omega
      · exact ih _ _ _ hbl

theorem batches_flatten (s e bs : Nat) (hbs : 1 ≤ bs) :
    (batches s e bs).flatten = blockRange s e :=
  batchesFuel_flatten bs hbs _ s e (Nat.le_refl _)

theorem blockRange_nodup (a b : Nat) : (blockRange a b).Nodup :=
  List.nodup_range' _ _

/-- C8: for `startBlock ≤ endBlock` and `batchSize ≥ 1`, the batch loop
partitions the inclusive range `[startBlock, endBlock]` into consecutive
batches processed sequentially in ascending order (their concatenation, in
loop order, is exactly the ascending range), every block of the range is
attempted exactly once, and every batch has between 1 and `batchSize`
blocks (only the final one may be shorter). -/
theorem C8_partition (start_block end_block batch_size : Nat)
    (h1 : start_block ≤ end_block) (h2 : 1 ≤ batch_size) :
    (batches start_block end_block batch_size).flatten =
      blockRange start_block end_block ∧
    (∀ n ∈ blockRange start_block end_block,
      ((batches start_block end_block batch_size).flatten).count n = 1) ∧
    (∀ bl ∈ batches start_block end_block batch_size,
      1 ≤ bl.length ∧ bl.length ≤ batch_size) := by
  refine ⟨batches_flatten _ _ _ h2, ?_, ?_⟩
  · intro n hn
    rw [batches_flatten _ _ _ h2]
    exact List.count_eq_one_of_mem (blockRange_nodup _ _) hn
  · intro bl hbl
    exact batchesFuel_mem_length _ _ _ _ _ hbl

/-- Witness for C8 at the concrete range `[0, 7]` with batch size 3
(batches `[0,1,2]`, `[3,4,5]`, `[6,7]`). -/
theorem C8_partition_witness :
    (batches 0 7 3).flatten = blockRange 0 7 ∧
    (∀ n ∈ blockRange 0 7, ((batches 0 7 3).flatten).count n = 1) ∧
    (∀ bl ∈ batches 0 7 3, 1 ≤ bl.length ∧ bl.length ≤ 3) :=
  C8_partition 0 7 3 (by decide) (by decide)

/-! ## The concurrency bound -/

/-- Invariant of the scheduling system: the in-flight set respects the cap,
the current batch's pending-plus-in-flight work never exceeds the batch size,
and every future batch fits the batch size. -/
def SchedInv (bs k : Nat) (st : SchedState) : Prop :=
  st.inflight.length ≤ k ∧
    st.queued.length + st.inflight.length ≤ bs ∧
    ∀ bl ∈ st.restBatches, bl.length ≤ bs

theorem schedInv_step {bs k : Nat} {a b : SchedState}
    (ha : SchedInv bs k a) (hstep : Step k a b) : SchedInv bs k b := by
  obtain ⟨h1, h2, h3⟩ := ha
  cases hstep with
  | start n queued inflight rest hlt =>
    refine ⟨?_, ?_, h3⟩
    · simp only [List.length_append, List.length_cons]
      simp at h1 h2 ⊢
      omega
    · simp only [List.length_append, List.length_cons] at h2 ⊢
      simp at h2 ⊢
      omega
  | finish queued l₁ n l₂ rest =>
    refine ⟨?_, ?_, h3⟩
    · simp only [List.length_append, List.length_cons] at h1 ⊢
      omega
    · simp only [List.length_append, List.length_cons] at h2 ⊢
      omega
  | nextBatch bl rest =>
    refine ⟨by simp, ?_, ?_⟩
    · have := h3 bl (by simp)
      simpa using this
    · intro bl' hbl'
      exact h3 bl' (by simp [hbl'])

theorem schedInv_reach {k : Nat} {a b : SchedState} (h : Reach k a b) :
    ∀ bs, SchedInv bs k a → SchedInv bs k b := by
  induction h with
  | refl => exact fun _ ha => ha
  | tail _ hstep ih => exact fun bs ha => schedInv_step (ih bs ha) hstep

/-- C2: in every state reachable during a run with concurrency cap
`maxConcurrent = k`, at most `k` fetches are in flight; since batches never
overlap (a new batch starts only once the previous one has fully drained,
by the `nextBatch` barrier), the in-flight count is also bounded by the batch
size, so peak concurrency is at most `min batchSize maxConcurrent` — for any
relation between `batchSize` and `k`. -/
theorem C2_concurrency_bound (start_block end_block batch_size k : Nat)
    (st : SchedState) (hbs : 1 ≤ batch_size)
    (h : Reach k (initSched start_block end_block batch_size) st) :
    st.inflight.length ≤ min batch_size k := by
  have hinit : SchedInv batch_size k (initSched start_block end_block batch_size) := by
    refine ⟨by simp [initSched], by simp [initSched], ?_⟩
    intro bl hbl
    exact (batchesFuel_mem_length _ _ _ _ _ hbl).2
  have hst := schedInv_reach h batch_size hinit
  obtain ⟨h1, h2, _⟩ := hst
  exact le_min (by omega) h1

/-- Witness for C2: with range `[1, 10]`, batch size 3 and cap 5, the state
after entering the first batch and dispatching block 1 is reachable and its
in-flight count respects `min 3 5`. -/
theorem C2_concurrency_bound_witness :
    (SchedState.mk [2, 3] [1] [[4, 5, 6], [7, 8, 9], [10]]).inflight.length ≤ min 3 5 :=
  C2_concurrency_bound 1 10 3 5 _ (by decide)
    (Reach.tail
      (Reach.tail (Reach.refl _)
        (show Step 5 (initSched 1 10 3) ⟨[1, 2, 3], [], [[4, 5, 6], [7, 8, 9], [10]]⟩ from
          Step.nextBatch [1, 2, 3] [[4, 5, 6], [7, 8, 9], [10]]))
      (show Step 5 ⟨[1, 2, 3], [], [[4, 5, 6], [7, 8, 9], [10]]⟩
          ⟨[2, 3], [] ++ [1], [[4, 5, 6], [7, 8, 9], [10]]⟩ from
        Step.start 1 [2, 3] [] [[4, 5, 6], [7, 8, 9], [10]] (by decide)))

/-! ## The transaction filter -/

theorem forall2_mem_left {α β : Type} {R : α → β → Prop} :
    ∀ {l₁ : List α} {l₂ : List β}, List.Forall₂ R l₁ l₂ →
      ∀ a ∈ l₁, ∃ b ∈ l₂, R a b := by
  intro l₁ l₂ h
  induction h with
  | nil => simp
  | cons hR _ ih =>
    intro a ha
    rcases List.mem_cons.mp ha with rfl | ha
    · exact ⟨_, by simp, hR⟩
    · rcases ih a ha with ⟨b, hb, hRb⟩
      exact ⟨b, by simp [hb], hRb⟩

theorem filterLoop_ok_corr (number tl : String) :
    ∀ (txs : List Transaction) (l : List FilteredTransaction),
      filterLoop number tl txs = Except.ok l →
      List.Forall₂ (fieldCorr number) l (txs.filter (matchesTarget tl)) := by
  intro txs
  induction txs with
  | nil =>
    intro l h
    simp only [filterLoop] at h
    cases h
    simp
  | cons tx rest ih =>
    intro l h
    simp only [filterLoop] at h
    cases hto : tx.«to» with
    | none =>
      rw [hto] at h
      have hm : matchesTarget tl tx = false := by simp [matchesTarget, hto]
      simp only [List.filter_cons, hm, Bool.false_eq_true, if_false]
      exact ih l h
    | some toAddr =>
      simp only [hto] at h
      cases hc : (lowerString toAddr == tl) with
      | false =>
        rw [if_neg (by simp [hc])] at h
        have hm : matchesTarget tl tx = false := by simp [matchesTarget, hto, hc]
        simp only [List.filter_cons, hm, Bool.false_eq_true, if_false]
        exact ih l h
      | true =>
        rw [if_pos hc] at h
        have hm : matchesTarget tl tx = true := by simp [matchesTarget, hto, hc]
        simp only [List.filter_cons, hm, if_true]
        cases hbn : convertNumeric invalidBlockMsg number with
        | error m => simp only [hbn] at h; exact Except.noConfusion h
        | ok bn =>
          simp only [hbn] at h
          cases hti : convertNumeric invalidIdxMsg tx.transaction_index with
          | error m => simp only [hti] at h; exact Except.noConfusion h
          | ok ti =>
            simp only [hti] at h
            cases hrec : filterLoop number tl rest with
            | error m => simp only [hrec] at h; exact Except.noConfusion h
            | ok l' =>
              simp only [hrec] at h
              cases h
              exact List.Forall₂.cons
                ⟨rfl, rfl, by rw [hto], rfl, rfl, rfl, hbn, hti⟩ (ih l' hrec)

theorem filterLoop_no_match (number tl : String) :
    ∀ txs : List Transaction,
      (∀ tx ∈ txs, matchesTarget tl tx = false) →
      filterLoop number tl txs = Except.ok [] := by
  intro txs
  induction txs with
  | nil => intro _; simp [filterLoop]
  | cons tx rest ih =>
    intro h
    have htx := h tx (by simp)
    have hrest := ih fun tx' h' => h tx' (by simp [h'])
    cases hto : tx.«to» with
    | none => simp [filterLoop, hto, hrest]
    | some toAddr =>
      have hc : (lowerString toAddr == tl) = false := by
        simpa [matchesTarget, hto] using htx
      simp [filterLoop, hto, hc, hrest]

theorem convertNumeric_error (tag s : String) (h1 : startsWith0x s = true)
    (h2 : u64_from_str_radix_16 (s.data.drop 2) = none) :
    convertNumeric tag s = Except.error (tag ++ s) := by
  simp [convertNumeric, h1, h2]

theorem filterLoop_error_of_bad_number (number tl : String)
    (hnum : ∃ m, convertNumeric invalidBlockMsg number = Except.error m) :
    ∀ txs : List Transaction, (∃ tx ∈ txs, matchesTarget tl tx = true) →
      ∃ m, filterLoop number tl txs = Except.error m := by
  intro txs
  induction txs with
  | nil => intro h; simp at h
  | cons tx rest ih =>
    intro h
    cases hto : tx.«to» with
    | none =>
      have hm : matchesTarget tl tx = false := by simp [matchesTarget, hto]
      have hrest : ∃ tx' ∈ rest, matchesTarget tl tx' = true := by
        rcases h with ⟨tx', htx', hmt⟩
        rcases List.mem_cons.mp htx' with rfl | hmem
        · rw [hm] at hmt; cases hmt
        · exact ⟨tx', hmem, hmt⟩
      rcases ih hrest with ⟨m, hm'⟩
      exact ⟨m, by simp [filterLoop, hto, hm']⟩
    | some toAddr =>
      cases hc : (lowerString toAddr == tl) with
      | true =>
        rcases hnum with ⟨m, hm'⟩
        refine ⟨m, ?_⟩
        simp only [filterLoop, hto]
        rw [if_pos hc]
        simp [hm']
      | false =>
        have hm : matchesTarget tl tx = false := by simp [matchesTarget, hto, hc]
        have hrest : ∃ tx' ∈ rest, matchesTarget tl tx' = true := by
          rcases h with ⟨tx', htx', hmt⟩
          rcases List.mem_cons.mp htx' with rfl | hmem
          · rw [hm] at hmt; cases hmt
          · exact ⟨tx', hmem, hmt⟩
        rcases ih hrest with ⟨m, hm'⟩
        refine ⟨m, ?_⟩
        simp only [filterLoop, hto]
        rw [if_neg (by simp [hc])]
        exact hm'

theorem filterLoop_error_of_bad_index (number tl : String) :
    ∀ (txs : List Transaction) (tx : Transaction), tx ∈ txs →
      matchesTarget tl tx = true →
      (∃ m, convertNumeric invalidIdxMsg tx.transaction_index = Except.error m) →
      ∃ m, filterLoop number tl txs = Except.error m := by
  intro txs
  induction txs with
  | nil => intro tx h; simp at h
  | cons hd rest ih =>
    intro tx hmem hmt hidx
    cases hbn : convertNumeric invalidBlockMsg number with
    | error m =>
      have hsome : ∃ tx' ∈ hd :: rest, matchesTarget tl tx' = true := ⟨tx, hmem, hmt⟩
      exact filterLoop_error_of_bad_number number tl ⟨m, hbn⟩ _ hsome
    | ok bn =>
      rcases List.mem_cons.mp hmem with rfl | hmem'
      · cases hto : tx.«to» with
        | none => simp [matchesTarget, hto] at hmt
        | some toAddr =>
          have hceq : lowerString toAddr = tl := by
            simpa [matchesTarget, hto] using hmt
          rcases hidx with ⟨m, hm'⟩
          refine ⟨m, ?_⟩
          simp only [filterLoop, hto]
          rw [if_pos (show (lowerString toAddr == tl) = true by simp [hceq])]
          simp [hbn, hm']
      · rcases ih tx hmem' hmt hidx with ⟨m, hm'⟩
        cases hto : hd.«to» with
        | none => exact ⟨m, by simp [filterLoop, hto, hm']⟩
        | some toAddr =>
          cases hc : (lowerString toAddr == tl) with
          | false =>
            refine ⟨m, ?_⟩
            simp only [filterLoop, hto]
            rw [if_neg (by simp [hc])]
            exact hm'
          | true =>
            cases hti : convertNumeric invalidIdxMsg hd.transaction_index with
            | error m' =>
              refine ⟨m', ?_⟩
              simp only [filterLoop, hto]
              rw [if_pos hc]
              simp [hbn, hti]
            | ok ti =>
              refine ⟨m, ?_⟩
              simp only [filterLoop, hto]
              rw [if_pos hc]
              simp [hbn, hti, hm']

/-! ## Lemmas about the batch aggregation loop -/

theorem processResults_ok :
    ∀ (rs : List FetchRes) (acc : RangeAgg),
      (∀ r ∈ rs, isPanicked r = false) →
      processResults acc rs = Except.ok
        { all_transactions := acc.all_transactions ++ (rs.map txsOf).flatten,
          total_blocks_processed := acc.total_blocks_processed + rs.countP isFetchedRes,
          total_transactions_found :=
            acc.total_transactions_found + (rs.map fun r => (txsOf r).length).sum } := by
  intro rs
  induction rs with
  | nil => intro acc _; simp [processResults]
  | cons r rest ih =>
    intro acc h
    have hr := h r (by simp)
    have hrest : ∀ x ∈ rest, isPanicked x = false := fun x hx => h x (by simp [hx])
    cases r with
    | panicked m => simp [isPanicked] at hr
    | failed =>
      rw [processResults, ih acc hrest]
      simp [txsOf, isFetchedRes, List.countP_cons]
    | fetched txs =>
      rw [processResults, ih _ hrest]
      simp [txsOf, isFetchedRes, List.countP_cons, List.append_assoc]
      omega

theorem processResults_ok_inv :
    ∀ (rs : List FetchRes) (acc agg : RangeAgg),
      processResults acc rs = Except.ok agg →
      agg = { all_transactions := acc.all_transactions ++ (rs.map txsOf).flatten,
              total_blocks_processed := acc.total_blocks_processed + rs.countP isFetchedRes,
              total_transactions_found :=
                acc.total_transactions_found + (rs.map fun r => (txsOf r).length).sum } := by
  intro rs
  induction rs with
  | nil =>
    intro acc agg h
    simp only [processResults] at h
    cases h
    simp
  | cons r rest ih =>
    intro acc agg h
    cases r with
    | panicked m => simp only [processResults] at h; exact Except.noConfusion h
    | failed =>
      rw [processResults] at h
      have := ih acc agg h
      simpa [txsOf, isFetchedRes, List.countP_cons] using this
    | fetched txs =>
      rw [processResults] at h
      have := ih _ agg h
      rw [this]
      simp [txsOf, isFetchedRes, List.countP_cons, List.append_assoc]
      omega

theorem processResults_error_of_panic :
    ∀ (rs : List FetchRes) (acc : RangeAgg),
      (∃ r ∈ rs, isPanicked r = true) →
      ∃ m, processResults acc rs = Except.error m := by
  intro rs
  induction rs with
  | nil => intro acc h; simp at h
  | cons r rest ih =>
    intro acc h
    cases r with
    | panicked m => exact ⟨m, by simp [processResults]⟩
    | failed =>
      have hrest : ∃ r' ∈ rest, isPanicked r' = true := by
        rcases h with ⟨r', hr', hp⟩
        rcases List.mem_cons.mp hr' with rfl | hmem
        · simp [isPanicked] at hp
        · exact ⟨r', hmem, hp⟩
      rcases ih acc hrest with ⟨m, hm⟩
      exact ⟨m, by rw [processResults]; exact hm⟩
    | fetched txs =>
      have hrest : ∃ r' ∈ rest, isPanicked r' = true := by
        rcases h with ⟨r', hr', hp⟩
        rcases List.mem_cons.mp hr' with rfl | hmem
        · simp [isPanicked] at hp
        · exact ⟨r', hmem, hp⟩
      rcases ih _ hrest with ⟨m, hm⟩
      exact ⟨m, by rw [processResults]; exact hm⟩

theorem runBatches_ok (fetch : Nat → FetchRes) (sched : List Nat → List Nat) :
    ∀ (L : List (List Nat)) (acc : RangeAgg),
      (∀ bl ∈ L, ∀ n ∈ sched bl, isPanicked (fetch n) = false) →
      runBatches fetch sched L acc = Except.ok
        { all_transactions := acc.all_transactions ++
            (L.map fun bl => ((sched bl).map fun n => txsOf (fetch n)).flatten).flatten,
          total_blocks_processed := acc.total_blocks_processed +
            (L.map fun bl => (sched bl).countP fun n => isFetchedRes (fetch n)).sum,
          total_transactions_found := acc.total_transactions_found +
            (L.map fun bl => ((sched bl).map fun n => (txsOf (fetch n)).length).sum).sum } := by
  intro L
  induction L with
  | nil => intro acc _; simp [runBatches]
  | cons bl rest ih =>
    intro acc h
    have hbl : ∀ r ∈ (sched bl).map fetch, isPanicked r = false := by
      intro r hr
      rcases List.mem_map.mp hr with ⟨n, hn, rfl⟩
      exact h bl (by simp) n hn
    rw [runBatches]
    simp only [processResults_ok _ _ hbl]
    rw [ih _ fun b hb => h b (by simp [hb])]
    simp [List.map_map, List.countP_map, List.append_assoc, Function.comp_def,
      Nat.add_assoc]

theorem runBatches_ok_inv (fetch : Nat → FetchRes) (sched : List Nat → List Nat) :
    ∀ (L : List (List Nat)) (acc r : RangeAgg),
      runBatches fetch sched L acc = Except.ok r →
      r.all_transactions = acc.all_transactions ++
        (L.map fun bl => ((sched bl).map fun n => txsOf (fetch n)).flatten).flatten := by
  intro L
  induction L with
  | nil =>
    intro acc r h
    simp only [runBatches] at h
    cases h
    simp
  | cons bl rest ih =>
    intro acc r h
    rw [runBatches] at h
    cases hp : processResults acc ((sched bl).map fetch) with
    | error m => rw [hp] at h; exact Except.noConfusion h
    | ok acc' =>
      rw [hp] at h
      have hacc' := processResults_ok_inv _ _ _ hp
      have := ih _ _ h
      rw [this, hacc']
      simp [List.map_map, Function.comp_def, List.append_assoc]

theorem runBatches_error_of_panic (fetch : Nat → FetchRes) (sched : List Nat → List Nat) :
    ∀ (L : List (List Nat)) (acc : RangeAgg),
      (∃ bl ∈ L, ∃ n ∈ sched bl, isPanicked (fetch n) = true) →
      ∃ m, runBatches fetch sched L acc = Except.error m := by
  intro L
  induction L with
  | nil => intro acc h; simp at h
  | cons bl rest ih =>
    intro acc h
    by_cases hhead : ∃ n ∈ sched bl, isPanicked (fetch n) = true
    · rcases hhead with ⟨n, hn, hp⟩
      have : ∃ x ∈ (sched bl).map fetch, isPanicked x = true :=
        ⟨fetch n, List.mem_map.mpr ⟨n, hn, rfl⟩, hp⟩
      rcases processResults_error_of_panic _ acc this with ⟨m, hm⟩
      exact ⟨m, by rw [runBatches, hm]⟩
    · have hheadno : ∀ r ∈ (sched bl).map fetch, isPanicked r = false := by
        intro x hx
        rcases List.mem_map.mp hx with ⟨n, hn, rfl⟩
        cases hb : isPanicked (fetch n) with
        | false => rfl
        | true => exact absurd ⟨n, hn, hb⟩ hhead
      have hrest : ∃ bl' ∈ rest, ∃ n ∈ sched bl', isPanicked (fetch n) = true := by
        rcases h with ⟨bl', hbl', hn⟩
        rcases List.mem_cons.mp hbl' with rfl | hmem
        · exact absurd hn hhead
        · exact ⟨bl', hmem, hn⟩
      rcases ih _ hrest with ⟨m, hm⟩
      refine ⟨m, ?_⟩
      rw [runBatches, processResults_ok _ _ hheadno]
      exact hm

theorem count_flatten_sched (sched : List Nat → List Nat)
    (hsched : ∀ bl, (sched bl).Perm bl) :
    ∀ (L : List (List Nat)) (n : Nat),
      ((L.map sched).flatten).count n = (L.flatten).count n := by
  intro L n
  induction L with
  | nil => simp
  | cons bl rest ih =>
    simp [List.count_append, ih, (hsched bl).count_eq n]

theorem flatten_map_flatten {α : Type} (f : Nat → List α) :
    ∀ L : List (List Nat),
      (L.map fun bl => (bl.map f).flatten).flatten = ((L.flatten).map f).flatten := by
  intro L
  induction L with
  | nil => simp
  | cons bl rest ih => simp [ih]

/-! ## Lemmas about the simple encoder -/

theorem str_append_empty (s : String) : s ++ "" = s :=
  String.ext (by simp [String.data_append, show ("" : String).data = [] from rfl])

theorem encode_foldl :
    ∀ (txs : List FilteredTransaction) (acc : String),
      txs.foldl
        (fun result tx =>
          result ++ "|" ++ tx.hash ++ "|" ++ tx.«from» ++ "|" ++ tx.«to» ++ "|" ++
            tx.value ++ "|" ++ tx.data ++ "|" ++ tx.block_number ++ "|" ++
            tx.transaction_index ++ "|" ++ tx.gas_price) acc
        = acc ++ concatRecords txs := by
  intro txs
  induction txs with
  | nil => intro acc; simp [concatRecords, str_append_empty]
  | cons tx rest ih =>
    intro acc
    rw [List.foldl_cons, ih, concatRecords]
    simp [recordString, String.append_assoc]

theorem encode_simple_format_eq (txs : List FilteredTransaction) (h : txs ≠ []) :
    encode_simple_format txs = Nat.repr txs.length ++ concatRecords txs := by
  cases txs with
  | nil => exact absurd rfl h
  | cons tx rest =>
    rw [encode_simple_format]
    rw [if_neg (by simp)]
    exact encode_foldl (tx :: rest) _

theorem recordString_count (tx : FilteredTransaction) (h : pipeFree tx) :
    (recordString tx).data.count '|' = 8 := by
  obtain ⟨h1, h2, h3, h4, h5, h6, h7, h8⟩ := h
  simp [recordString, String.data_append, List.count_append, h1, h2, h3, h4, h5,
    h6, h7, h8, show ("|" : String).data = ['|'] from rfl]

theorem concatRecords_count :
    ∀ txs : List FilteredTransaction, (∀ tx ∈ txs, pipeFree tx) →
      (concatRecords txs).data.count '|' = 8 * txs.length := by
  intro txs
  induction txs with
  | nil => intro _; simp [concatRecords, show ("" : String).data = [] from rfl]
  | cons tx rest ih =>
    intro h
    rw [concatRecords]
    simp only [String.data_append, List.count_append]
    rw [recordString_count tx (h tx (by simp)), ih fun tx' h' => h tx' (by simp [h'])]
    simp [List.length_cons]
    omega

/-! ## The claims -/

/-- C1, as stated, is false: a hex-prefixed but invalid block-number string
does not produce the per-block error outcome (`FetchRes.failed`) for that
block; on `blockBad` (number `"0xzz"`, one matching transaction) served as
block 5, `fetch_block_transactions` panics instead. -/
theorem C1_counterexample :
    ¬ (∀ (net : Nat → Option Block) (target : String) (n : Nat) (b : Block),
        net n = some b → startsWith0x b.number = true →
        u64_from_str_radix_16 (b.number.data.drop 2) = none →
        fetch_block_transactions net target n = FetchRes.failed) := by
  intro hclaim
  have h := hclaim netBad "0xabc" 5 blockBad rfl (by decide) (by decide)
  have h2 : fetch_block_transactions netBad "0xabc" 5 =
      FetchRes.panicked "Invalid hex block number: 0xzz" := rfl
  rw [h2] at h
  exact FetchRes.noConfusion h

/-- C1 (amended): a hex-prefixed but invalid block-number or
transaction-index string makes the filtering step panic — the per-block
result is the unwinding `panic!`, not a recoverable error result — as soon
as the block contains at least one matching transaction, and any panicking
fetch aborts the whole run; if no transaction matches, the malformed
numeral is never parsed and the block yields an empty success. -/
theorem C1_malformed_hex_panics :
    (∀ (b : Block) (target : String),
        startsWith0x b.number = true →
        u64_from_str_radix_16 (b.number.data.drop 2) = none →
        (∃ tx ∈ b.transactions, matchesTarget (lowerString target) tx = true) →
        ∃ m, fetch_block_transactions_filter b target = Except.error m) ∧
    (∀ (b : Block) (target : String) (tx : Transaction), tx ∈ b.transactions →
        matchesTarget (lowerString target) tx = true →
        startsWith0x tx.transaction_index = true →
        u64_from_str_radix_16 (tx.transaction_index.data.drop 2) = none →
        ∃ m, fetch_block_transactions_filter b target = Except.error m) ∧
    (∀ (net : Nat → Option Block) (target : String) (n : Nat) (b : Block) (m : String),
        net n = some b → fetch_block_transactions_filter b target = Except.error m →
        fetch_block_transactions net target n = FetchRes.panicked m) ∧
    (∀ (fetch : Nat → FetchRes) (sched : List Nat → List Nat)
        (start_block end_block batch_size : Nat),
        (∃ bl ∈ batches start_block end_block batch_size,
          ∃ n ∈ sched bl, isPanicked (fetch n) = true) →
        ∃ m, fetch_block_range_transactions_optimized fetch sched
            start_block end_block batch_size = Except.error m) ∧
    (∀ (b : Block) (target : String),
        (∀ tx ∈ b.transactions, matchesTarget (lowerString target) tx = false) →
        fetch_block_transactions_filter b target = Except.ok []) := by
  refine ⟨?_, ?_, ?_, ?_, ?_⟩
  · intro b target h1 h2 hex
    exact filterLoop_error_of_bad_number b.number (lowerString target)
      ⟨_, convertNumeric_error _ _ h1 h2⟩ b.transactions hex
  · intro b target tx hmem hmt h3 h4
    exact filterLoop_error_of_bad_index b.number (lowerString target)
      b.transactions tx hmem hmt ⟨_, convertNumeric_error _ _ h3 h4⟩
  · intro net target n b m hnet hfil
    simp [fetch_block_transactions, hnet, hfil]
  · intro fetch sched s e bs h
    exact runBatches_error_of_panic fetch sched _ _ h
  · intro b target h
    exact filterLoop_no_match _ _ _ h

/-- Witness for the amended C1: on `blockBad` the filtering step panics. -/
theorem C1_malformed_hex_panics_witness :
    ∃ m, fetch_block_transactions_filter blockBad "0xabc" = Except.error m :=
  C1_malformed_hex_panics.1 blockBad "0xabc" (by decide) (by decide)
    ⟨txMatch, by decide, by decide⟩

/-- C3, as stated, is false: with blocks 1 and 2 in one batch and the batch
completing in reverse order (block 2 first), the aggregate lists block 2's
transaction before block 1's, so the final sequence is not ascending in
block number for every completion order. -/
theorem C3_counterexample :
    ¬ (∀ (fetch : Nat → FetchRes) (sched : List Nat → List Nat)
        (start_block end_block batch_size : Nat) (r : RangeAgg),
        (∀ bl, (sched bl).Perm bl) →
        fetch_block_range_transactions_optimized fetch sched
          start_block end_block batch_size = Except.ok r →
        r.all_transactions.Pairwise keyLe) := by
  intro hclaim
  have hperm : ∀ bl : List Nat, (schedRev bl).Perm bl := fun bl => List.reverse_perm bl
  have hrun : fetch_block_range_transactions_optimized
      (fun n => fetch_block_transactions netC3 "0xaa" n) schedRev 1 2 2 =
      Except.ok { all_transactions := [ftOfBlock "2", ftOfBlock "1"],
                  total_blocks_processed := 2, total_transactions_found := 2 } := rfl
  have hpw := hclaim _ schedRev 1 2 2 _ hperm hrun
  have h21 : keyLe (ftOfBlock "2") (ftOfBlock "1") :=
    (List.pairwise_cons.mp hpw).1 _ (by simp)
  have hnot : ¬ keyLe (ftOfBlock "2") (ftOfBlock "1") := by
    intro h
    rcases h with h | ⟨h, _⟩
    · exact absurd h (by decide)
    · exact absurd h (by decide)
  exact hnot h21

/-- C3 (amended): the aggregate is the concatenation of the batches'
contributions in ascending batch order, and within a batch each block's
transactions appear contiguously in completion order; ascending block-number
order therefore holds when each batch completes in dispatch (ascending)
order, but is not guaranteed for arbitrary completion orders. -/
theorem C3_order_characterization :
    (∀ (fetch : Nat → FetchRes) (sched : List Nat → List Nat)
        (start_block end_block batch_size : Nat) (r : RangeAgg),
        fetch_block_range_transactions_optimized fetch sched
          start_block end_block batch_size = Except.ok r →
        r.all_transactions = ((batches start_block end_block batch_size).map
          fun bl => ((sched bl).map fun n => txsOf (fetch n)).flatten).flatten) ∧
    (∀ (fetch : Nat → FetchRes) (start_block end_block batch_size : Nat)
        (r : RangeAgg), 1 ≤ batch_size →
        fetch_block_range_transactions_optimized fetch (fun bl => bl)
          start_block end_block batch_size = Except.ok r →
        r.all_transactions =
          ((blockRange start_block end_block).map fun n => txsOf (fetch n)).flatten) := by
  constructor
  · intro fetch sched s e bs r h
    have := runBatches_ok_inv fetch sched (batches s e bs) _ r h
    simpa using this
  · intro fetch s e bs r hbs h
    have := runBatches_ok_inv fetch (fun bl => bl) (batches s e bs) _ r h
    simp only [List.nil_append] at this
    rw [this]
    rw [flatten_map_flatten (fun n => txsOf (fetch n)) (batches s e bs)]
    rw [batches_flatten s e bs hbs]

/-- Witness for the amended C3: the run of `C3_counterexample`'s fixture
satisfies the batch-structured characterization. -/
theorem C3_order_characterization_witness :
    ([ftOfBlock "2", ftOfBlock "1"] : List FilteredTransaction) =
      ((batches 1 2 2).map
        fun bl => ((schedRev bl).map
          fun n => txsOf (fetch_block_transactions netC3 "0xaa" n)).flatten).flatten :=
  C3_order_characterization.1 (fun n => fetch_block_transactions netC3 "0xaa" n)
    schedRev 1 2 2
    { all_transactions := [ftOfBlock "2", ftOfBlock "1"],
      total_blocks_processed := 2, total_transactions_found := 2 } rfl

theorem countP_fetched_failed (fetch : Nat → FetchRes) :
    ∀ l : List Nat, (∀ n ∈ l, isPanicked (fetch n) = false) →
      l.countP (fun n => isFetchedRes (fetch n)) +
        l.countP (fun n => isFailedRes (fetch n)) = l.length := by
  intro l
  induction l with
  | nil => intro _; simp
  | cons n rest ih =>
    intro h
    have hn := h n (by simp)
    have hrest := ih fun m hm => h m (by simp [hm])
    cases hf : fetch n with
    | panicked m => rw [hf] at hn; simp [isPanicked] at hn
    | failed =>
      simp [List.countP_cons, hf, isFetchedRes, isFailedRes] at hrest ⊢
      omega
    | fetched txs =>
      simp [List.countP_cons, hf, isFetchedRes, isFailedRes] at hrest ⊢
      omega

/-- C4: when some blocks' fetches fail (with the recoverable error, not a
panic) while others succeed, the run completes without aborting; each failed
block contributes no transactions while every successful block's filtered
transactions are all included; the success counter counts exactly the
successful blocks, so the number of failed blocks is exactly
`attempted - succeeded` (the code reports successes; one failure adds one to
this difference); and every block of the range is fetched exactly once, with
no retries. -/
theorem C4_partial_failure_isolation (fetch : Nat → FetchRes)
    (sched : List Nat → List Nat) (start_block end_block batch_size : Nat)
    (hbs : 1 ≤ batch_size) (hsched : ∀ bl, (sched bl).Perm bl)
    (hnp : ∀ n ∈ blockRange start_block end_block, isPanicked (fetch n) = false) :
    ∃ r, fetch_block_range_transactions_optimized fetch sched
        start_block end_block batch_size = Except.ok r ∧
      r.all_transactions = ((batches start_block end_block batch_size).map
        fun bl => ((sched bl).map fun n => txsOf (fetch n)).flatten).flatten ∧
      r.total_blocks_processed = (blockRange start_block end_block).countP
        (fun n => isFetchedRes (fetch n)) ∧
      (blockRange start_block end_block).length - r.total_blocks_processed =
        (blockRange start_block end_block).countP (fun n => isFailedRes (fetch n)) ∧
      (∀ n ∈ blockRange start_block end_block,
        (invocations sched start_block end_block batch_size).count n = 1) := by
  have hcond : ∀ bl ∈ batches start_block end_block batch_size,
      ∀ n ∈ sched bl, isPanicked (fetch n) = false := by
    intro bl hbl n hn
    have hnbl : n ∈ bl := ((hsched bl).mem_iff).mp hn
    have hnr : n ∈ blockRange start_block end_block := by
      rw [← batches_flatten start_block end_block batch_size hbs]
      exact List.mem_flatten.mpr ⟨bl, hbl, hnbl⟩
    exact hnp n hnr
  have hrun := runBatches_ok fetch sched (batches start_block end_block batch_size)
    { all_transactions := [], total_blocks_processed := 0,
      total_transactions_found := 0 } hcond
  have hproc : ((batches start_block end_block batch_size).map
      fun bl => (sched bl).countP fun n => isFetchedRes (fetch n)).sum =
      (blockRange start_block end_block).countP fun n => isFetchedRes (fetch n) := by
    rw [List.map_congr_left
      fun bl _ => ((hsched bl).countP_eq fun n => isFetchedRes (fetch n))]
    rw [← List.countP_flatten, batches_flatten start_block end_block batch_size hbs]
  refine ⟨_, hrun, by simp, by simp [hproc], ?_, ?_⟩
  · simp only [hproc]
    have hsplit := countP_fetched_failed fetch (blockRange start_block end_block) hnp
    omega
  · intro n hn
    unfold invocations
    rw [count_flatten_sched sched hsched,
      batches_flatten start_block end_block batch_size hbs]
    exact List.count_eq_one_of_mem (blockRange_nodup _ _) hn

/-- Witness for C4: range `[1, 3]` in one batch completing in reverse order,
with block 2 failing and blocks 1 and 3 succeeding. -/
theorem C4_partial_failure_isolation_witness :
    ∃ r, fetch_block_range_transactions_optimized fetchC4 schedRev 1 3 3 =
        Except.ok r ∧
      r.all_transactions = ((batches 1 3 3).map
        fun bl => ((schedRev bl).map fun n => txsOf (fetchC4 n)).flatten).flatten ∧
      r.total_blocks_processed =
        (blockRange 1 3).countP (fun n => isFetchedRes (fetchC4 n)) ∧
      (blockRange 1 3).length - r.total_blocks_processed =
        (blockRange 1 3).countP (fun n => isFailedRes (fetchC4 n)) ∧
      (∀ n ∈ blockRange 1 3, (invocations schedRev 1 3 3).count n = 1) :=
  C4_partial_failure_isolation fetchC4 schedRev 1 3 3 (by decide)
    (fun bl => List.reverse_perm bl) (by decide)

/-- C5: whenever the filter succeeds on a block, its output corresponds
one-to-one and in order (`List.Forall₂`) to exactly the transactions whose
`to` field is present and equals the target under case-insensitive
comparison — so each such transaction yields exactly one record and nothing
else is emitted; transactions with an absent `to` (contract creation) never
match; and a block with no matching transaction always yields the empty
sequence (its numeric fields are never even parsed). -/
theorem C5_filter_exactly_matches :
    (∀ (b : Block) (target : String) (l : List FilteredTransaction),
        fetch_block_transactions_filter b target = Except.ok l →
        List.Forall₂ (fieldCorr b.number) l
          (b.transactions.filter (matchesTarget (lowerString target)))) ∧
    (∀ (target : String) (tx : Transaction), tx.«to» = none →
        matchesTarget (lowerString target) tx = false) ∧
    (∀ (b : Block) (target : String),
        (∀ tx ∈ b.transactions, matchesTarget (lowerString target) tx = false) →
        fetch_block_transactions_filter b target = Except.ok []) := by
  refine ⟨?_, ?_, ?_⟩
  · intro b target l h
    exact filterLoop_ok_corr b.number (lowerString target) b.transactions l h
  · intro target tx h
    simp [matchesTarget, h]
  · intro b target h
    exact filterLoop_no_match _ _ _ h

/-- Witness for C5: on `blockFix` (a creation transaction, one mixed-case
match, one unrelated transfer) with target `0XABC`, the filter emits exactly
the one record for `txMatch`. -/
theorem C5_filter_exactly_matches_witness :
    List.Forall₂ (fieldCorr blockFix.number) [ftMatch]
      (blockFix.transactions.filter (matchesTarget (lowerString "0XABC"))) :=
  C5_filter_exactly_matches.1 blockFix "0XABC" [ftMatch] rfl

/-- C6: the wire-to-decimal normalization is exact: a `0x`-prefixed string
whose payload parses as hex value `n` becomes the canonical decimal numeral
of `n`; a non-prefixed string is carried through as-is; in particular
`0x10 ↦ "16"` and `0x0 ↦ "0"`. -/
theorem C6_hex_normalization_exact :
    (∀ (tag s : String) (n : Nat), startsWith0x s = true →
        u64_from_str_radix_16 (s.data.drop 2) = some n →
        convertNumeric tag s = Except.ok (Nat.repr n)) ∧
    (∀ tag s : String, startsWith0x s = false →
        convertNumeric tag s = Except.ok s) ∧
    convertNumeric invalidBlockMsg "0x10" = Except.ok "16" ∧
    convertNumeric invalidIdxMsg "0x0" = Except.ok "0" := by
  refine ⟨?_, ?_, rfl, rfl⟩
  · intro tag s n h1 h2
    simp [convertNumeric, h1, h2]
  · intro tag s h
    simp [convertNumeric, h]

/-- Witness for C6: `0x2a` normalizes to the decimal string `42`. -/
theorem C6_hex_normalization_exact_witness :
    convertNumeric invalidBlockMsg "0x2a" = Except.ok "42" :=
  C6_hex_normalization_exact.1 invalidBlockMsg "0x2a" 42 (by decide) (by decide)

/-- C7: the simple encoder yields exactly `"0"` on an empty list; on a
nonempty list of `N` records it yields the decimal numeral of `N` followed
by the `N` pipe-delimited records in order (each record carrying hash, from,
to, value, data, blockNumber, txIndex, gasPrice, in that order, per
`recordString`); and with pipe-free fields that suffix contains exactly
`8 * N` delimiters — one leading the record plus the 7 separating its 8
fields, `N` times. -/
theorem C7_simple_encoding_shape :
    encode_simple_format [] = "0" ∧
    (∀ txs : List FilteredTransaction, txs ≠ [] →
        encode_simple_format txs = Nat.repr txs.length ++ concatRecords txs) ∧
    (∀ txs : List FilteredTransaction, (∀ tx ∈ txs, pipeFree tx) →
        (concatRecords txs).data.count '|' = 8 * txs.length) := by
  refine ⟨rfl, ?_, ?_⟩
  · intro txs h
    exact encode_simple_format_eq txs h
  · intro txs h
    exact concatRecords_count txs h

/-- Witness for C7: the one-record list around `ftMatch`. -/
theorem C7_simple_encoding_shape_witness :
    encode_simple_format [ftMatch] = Nat.repr 1 ++ concatRecords [ftMatch] ∧
    (concatRecords [ftMatch]).data.count '|' = 8 * 1 :=
  ⟨C7_simple_encoding_shape.2.1 [ftMatch] (by decide),
   C7_simple_encoding_shape.2.2 [ftMatch] (by
     intro tx htx
     rcases List.mem_singleton.mp htx with rfl
     refine ⟨?_, ?_, ?_, ?_, ?_, ?_, ?_, ?_⟩ <;> decide)⟩

/-- C9: every output-format selector other than `"simple"` and `"json"`
takes the wildcard arm and produces exactly the simple encoding — the same
output as selector `"simple"` — with no error. -/
theorem C9_unknown_format_falls_back :
    ∀ (transactions : List FilteredTransaction) (fmt : String),
      fmt ≠ "simple" → fmt ≠ "json" →
      encode_transactions_for_foundry transactions fmt =
          encode_simple_format transactions ∧
      encode_transactions_for_foundry transactions fmt =
        encode_transactions_for_foundry transactions "simple" := by
  intro txs fmt h1 h2
  constructor
  · simp [encode_transactions_for_foundry, h1, h2]
  · simp [encode_transactions_for_foundry, h1, h2]

/-- Witness for C9 at the unrecognized selector `"csv"`. -/
theorem C9_unknown_format_falls_back_witness :
    encode_transactions_for_foundry [ftMatch] "csv" = encode_simple_format [ftMatch] ∧
    encode_transactions_for_foundry [ftMatch] "csv" =
      encode_transactions_for_foundry [ftMatch] "simple" :=
  C9_unknown_format_falls_back [ftMatch] "csv" (by decide) (by decide)

/-- C10: every emitted record's `to` field is the matched transaction's own
`to` string verbatim (the transaction's `to` is `some` of exactly the output
string), with lowercasing used only in the equality test; concretely, with
target `0XABC` and wire `to` `0xAbC` the output `to` keeps the original
casing `0xAbC` and differs from the lowercased target. -/
theorem C10_to_field_verbatim :
    (∀ (b : Block) (target : String) (l : List FilteredTransaction)
        (ft : FilteredTransaction),
        fetch_block_transactions_filter b target = Except.ok l → ft ∈ l →
        ∃ tx ∈ b.transactions, tx.«to» = some ft.«to» ∧
          lowerString ft.«to» = lowerString target) ∧
    (fetch_block_transactions_filter blockFix "0XABC" = Except.ok [ftMatch] ∧
      ftMatch.«to» = "0xAbC" ∧ ftMatch.«to» ≠ lowerString "0XABC") := by
  constructor
  · intro b target l ft h hft
    have hcorr := filterLoop_ok_corr b.number (lowerString target) b.transactions l h
    rcases forall2_mem_left hcorr ft hft with ⟨tx, htx, hR⟩
    have htxmem : tx ∈ b.transactions := (List.mem_filter.mp htx).1
    have hmt : matchesTarget (lowerString target) tx = true := (List.mem_filter.mp htx).2
    obtain ⟨-, -, hto, -, -, -, -, -⟩ := hR
    refine ⟨tx, htxmem, hto, ?_⟩
    simpa [matchesTarget, hto] using hmt
  · exact ⟨rfl, rfl, by decide⟩

/-- Witness for C10: the matched transaction of `blockFix` carries its
original mixed-case `to` into the output. -/
theorem C10_to_field_verbatim_witness :
    ∃ tx ∈ blockFix.transactions, tx.«to» = some ftMatch.«to» ∧
      lowerString ftMatch.«to» = lowerString "0XABC" :=
  C10_to_field_verbatim.1 blockFix "0XABC" [ftMatch] ftMatch rfl (by simp)
